import Mathlib

/-!
Verification of the content-validation script (`scripts/validate.js`) of the
portfolio-website repository: the frontmatter parser and the blog-post /
project rule engines, embedded shallowly over `List Char` strings.
-/

/-- Strings are modelled as lists of characters. -/
abbrev Str : Type := List Char

/-- Convert a Lean string literal to the `List Char` model. -/
def str (s : String) : Str := s.data

/-- Whitespace characters recognised by `String.prototype.trim` that can occur
in the inputs handled here (space, tab, newline, carriage return). -/
def isWS (c : Char) : Bool := c = ' ' || c = '\t' || c = '\n' || c = '\x0d'

/-- Left trim: drop leading whitespace (`trim`, leading half). -/
def trimL (s : Str) : Str := s.dropWhile isWS

/-- Right trim: drop trailing whitespace (`trim`, trailing half). -/
def trimR (s : Str) : Str := (s.reverse.dropWhile isWS).reverse

/-- JavaScript `value.trim()`. -/
def trim (s : Str) : Str := trimR (trimL s)

/-- A single or double quote character (the class `["']`). -/
def isQuote (c : Char) : Bool := c = '"' || c = Char.ofNat 39

/-- Remove one leading quote if present (the `^["']` alternative of
`value.replace(/^["']|["']$/g, '')`). -/
def stripLead (s : Str) : Str :=
  match s with
  | [] => []
  | c :: rest => if isQuote c then rest else c :: rest

/-- Remove one trailing quote if present (the `["']$` alternative of
`value.replace(/^["']|["']$/g, '')`). -/
def stripTrail (s : Str) : Str :=
  match s.getLast? with
  | some c => if isQuote c then s.dropLast else s
  | none => []

/-- `value.replace(/^["']|["']$/g, '')`: with the global flag, `^` matches only
at position 0 and `["']$` only at the last character, so the replacement
removes one leading quote if present and one trailing quote if present,
independently (the leading one is consumed first). -/
def stripQuotes (s : Str) : Str := stripTrail (stripLead s)

/-- A parsed frontmatter field value: a scalar string or a list of strings
(`validate.js` stores either a string or an array of strings). -/
inductive Value : Type
  | scalar (s : Str)
  | list (xs : List Str)
deriving DecidableEq

/-- The `frontmatter` object: an association list in key-insertion order with
unique keys (JavaScript object semantics). -/
abbrev Fields : Type := List (Str × Value)

/-- Object property read `frontmatter[key]`. -/
def getField (m : Fields) (k : Str) : Option Value :=
  (m.find? (fun p => p.1 = k)).map (fun p => p.2)

/-- Object property write `frontmatter[key] = value`: overwrite the value in
place if the key exists, otherwise append the key at the end. -/
def setField (m : Fields) (k : Str) (v : Value) : Fields :=
  if m.any (fun p => p.1 = k) then
    m.map (fun p => if p.1 = k then (k, v) else p)
  else
    m ++ [(k, v)]

/-- Lines 47-52 of `validate.js`: the text after the first colon, trimmed, is
quote-stripped once; if the result starts with `[` and ends with `]` the
bracket pair is dropped, the remainder split on commas and each element
trimmed and quote-stripped, giving a list; otherwise it is a scalar. -/
def parseValue (raw : Str) : Value :=
  if (stripQuotes (trim raw)).head? = some '[' ∧
      (stripQuotes (trim raw)).getLast? = some ']' then
    Value.list (((((stripQuotes (trim raw)).drop 1).dropLast).splitOn ',').map
      (fun e => stripQuotes (trim e)))
  else
    Value.scalar (stripQuotes (trim raw))

/-- `line.indexOf(':')` together with the two `substring` calls: split a line
at its first colon, returning the text before and after it, or `none` when the
line has no colon. -/
def colonSplit (s : Str) : Option (Str × Str) :=
  match s with
  | [] => none
  | c :: rest =>
    if c = ':' then some ([], rest)
    else (colonSplit rest).map (fun p => (c :: p.1, p.2))

/-- Lines 43-56 of `validate.js`, body of the `forEach`: a line with no colon
is skipped; otherwise the trimmed text before the first colon is the key and
the parsed value is stored, overwriting any earlier value for the key. -/
def parseLine (m : Fields) (line : Str) : Fields :=
  match colonSplit line with
  | none => m
  | some (pre, post) => setField m (trim pre) (parseValue post)

/-- Parse the captured header region: split it on newlines and process each
line in order, starting from the empty object. -/
def parseHeader (h : Str) : Fields :=
  (h.splitOn '\n').foldl parseLine []

/-- The opening delimiter `---\n` matched by the anchored `^---\n`. -/
def fmDelim : Str := str "---\n"

/-- The closing delimiter `\n---\n` that ends the non-greedy header group. -/
def fmSep : Str := str "\n---\n"

/-- Search for the first decomposition `t = H ++ "\n---\n" ++ B` with `H`
nonempty, scanning left to right: this is exactly the non-greedy capture
`([\s\S]+?)` followed by `\n---\n` in the frontmatter regex. -/
def fmSplitAux (t : Str) : Option (Str × Str) :=
  match t with
  | [] => none
  | c :: rest =>
    if fmSep.isPrefixOf rest then some ([c], rest.drop 5)
    else (fmSplitAux rest).map (fun p => (c :: p.1, p.2))

/-- The regex match `content.match(/^---\n([\s\S]+?)\n---\n([\s\S]*)$/)`:
`some (header, body)` on success, `none` when the pattern does not match. -/
def fmMatch (content : Str) : Option (Str × Str) :=
  if fmDelim.isPrefixOf content then fmSplitAux (content.drop 4) else none

/-- `parseFrontmatter` (lines 34-59): on a failed match return `null` fields
and the whole input as body; on success parse the header region and return the
text after the closing delimiter as body. -/
def parseFrontmatter (content : Str) : Option Fields × Str :=
  match fmMatch content with
  | none => (none, content)
  | some (header, body) => (some (parseHeader header), body)

/-- Environment abstraction for the two platform predicates the validators
call out to: `fs.existsSync(path.join(__dirname, '..', img))` (keyed here by
the raw image string, the path resolution being environment data) and
`!isNaN(Date.parse(s))`. -/
structure Ctx : Type where
  fsExists : Str → Bool
  dateParses : Str → Bool

/-- JavaScript truthiness of a possibly-absent field value: absent and the
empty string are falsy; any non-empty string and any array are truthy. -/
def truthy (v : Option Value) : Bool :=
  match v with
  | none => false
  | some (Value.scalar s) => !s.isEmpty
  | some (Value.list _) => true

/-- JavaScript string coercion of a field value, as used in template literals
and `new URL(...)`: a string is itself, an array joins its elements with
commas. -/
def valueStr (v : Value) : Str :=
  match v with
  | Value.scalar s => s
  | Value.list xs => List.intercalate [','] xs

/-- String coercion of an optional field value (empty for an absent field; the
code only coerces values it has found truthy). -/
def valueStrOpt (v : Option Value) : Str :=
  match v with
  | none => []
  | some v => valueStr v

/-- Decimal rendering of a number interpolated into a message. -/
def natStr (n : Nat) : Str := Nat.toDigits 10 n

/-- Blog rule: `!frontmatter.title` pushes a missing-title error. -/
def blogTitleE (fn : Str) (fm : Fields) : List Str :=
  if truthy (getField fm (str "title")) then []
  else [fn ++ str ": Missing required field \x27title\x27"]

/-- Blog rule: `!frontmatter.date` pushes a missing-date error. -/
def blogDateE (fn : Str) (fm : Fields) : List Str :=
  if truthy (getField fm (str "date")) then []
  else [fn ++ str ": Missing required field \x27date\x27"]

/-- Blog rule: `frontmatter.date && isNaN(Date.parse(frontmatter.date))`
pushes an invalid-date-format error quoting the value. -/
def blogDateFmtE (ctx : Ctx) (fn : Str) (fm : Fields) : List Str :=
  let d := getField fm (str "date")
  if truthy d && !ctx.dateParses (valueStrOpt d) then
    [fn ++ str ": Invalid date format \x27" ++ valueStrOpt d ++ str "\x27"]
  else []

/-- Blog rule: `!frontmatter.excerpt` pushes a missing-excerpt warning. -/
def blogExcerptW (fn : Str) (fm : Fields) : List Str :=
  if truthy (getField fm (str "excerpt")) then []
  else [fn ++ str ": Missing \x27excerpt\x27 field (recommended)"]

/-- Blog rule: `if (frontmatter.image)` check the file exists, warning with
the literal image value when it does not; a falsy `image` contributes
nothing. -/
def blogImageW (ctx : Ctx) (fn : Str) (fm : Fields) : List Str :=
  let i := getField fm (str "image")
  if truthy i then
    if ctx.fsExists (valueStrOpt i) then []
    else [fn ++ str ": Image not found: " ++ valueStrOpt i]
  else []

/-- Blog rule: a trimmed body shorter than 100 characters warns with the
literal length. -/
def blogLenW (fn : Str) (content : Str) : List Str :=
  if (trim content).length < 100 then
    [fn ++ str ": Content is very short (" ++ natStr (trim content).length
      ++ str " characters)"]
  else []

/-- Blog rule: `frontmatter.tags && Array.isArray(frontmatter.tags) &&
frontmatter.tags.length === 0` warns of an empty tags array. -/
def blogTagsW (fn : Str) (fm : Fields) : List Str :=
  match getField fm (str "tags") with
  | some (Value.list xs) =>
    if xs.length = 0 then [fn ++ str ": Tags array is empty"] else []
  | _ => []

/-- `validateBlogPost` (lines 64-105): returns the errors and warnings this
document appends, in push order. -/
def validateBlogPost (ctx : Ctx) (fn : Str) (doc : Str) : List Str × List Str :=
  match parseFrontmatter doc with
  | (none, _) => ([fn ++ str ": Missing or invalid frontmatter"], [])
  | (some fm, content) =>
    (blogTitleE fn fm ++ blogDateE fn fm ++ blogDateFmtE ctx fn fm,
     blogExcerptW fn fm ++ blogImageW ctx fn fm ++ blogLenW fn content
       ++ blogTagsW fn fm)

/-- Project rule: `!frontmatter.title` pushes a missing-title error. -/
def projTitleE (fn : Str) (fm : Fields) : List Str :=
  if truthy (getField fm (str "title")) then []
  else [fn ++ str ": Missing required field \x27title\x27"]

/-- Project rule: `!frontmatter.description` pushes a missing-description
error. -/
def projDescE (fn : Str) (fm : Fields) : List Str :=
  if truthy (getField fm (str "description")) then []
  else [fn ++ str ": Missing required field \x27description\x27"]

/-- Project rule: `!frontmatter.technologies || !Array.isArray(...) ||
length === 0` warns that no technologies are listed. -/
def projTechW (fn : Str) (fm : Fields) : List Str :=
  match getField fm (str "technologies") with
  | some (Value.list xs) =>
    if xs.length = 0 then [fn ++ str ": No technologies listed"] else []
  | _ => [fn ++ str ": No technologies listed"]

/-- Project rule: a truthy `image` is checked for existence (warning with the
literal value when absent on disk); a falsy `image` warns that no featured
image is specified. -/
def projImageW (ctx : Ctx) (fn : Str) (fm : Fields) : List Str :=
  let i := getField fm (str "image")
  if truthy i then
    if ctx.fsExists (valueStrOpt i) then []
    else [fn ++ str ": Image not found: " ++ valueStrOpt i]
  else [fn ++ str ": No featured image specified"]

/-- Project rule: neither `demo_url` nor `github_url` truthy warns. -/
def projUrlW (fn : Str) (fm : Fields) : List Str :=
  if !truthy (getField fm (str "demo_url"))
      && !truthy (getField fm (str "github_url")) then
    [fn ++ str ": No demo or GitHub URL provided"]
  else []

/-- A URL scheme character after the first: letter, digit, `+`, `-`, `.`
(see `isValidUrl`). -/
def isSchemeChar (c : Char) : Bool := c.isAlphanum || c = '+' || c = '-' || c = '.'

/-- A valid URL scheme: a letter followed by scheme characters (see
`isValidUrl`). -/
def validScheme (s : Str) : Bool :=
  match s with
  | [] => false
  | c :: rest => c.isAlpha && rest.all isSchemeChar

/-- URL validity per the spec. Modelled from the spec: the source calls the
platform builtin `new URL(string)` (the WHATWG URL parser), which is not part
of this repository; following the spec's description, a string is accepted
exactly when it is an absolute URL with a scheme (a letter followed by scheme
characters) before its first colon and an authority introduced by `//` and
nonempty after it. -/
def isValidUrl (s : Str) : Bool :=
  match colonSplit s with
  | none => false
  | some (scheme, rest) =>
    validScheme scheme && rest.take 2 = str "//" && !(rest.drop 2).isEmpty

/-- Declarative form of the spec's URL acceptance condition: the string
decomposes as a valid scheme, `://`, and a nonempty remainder. -/
def IsAbsoluteUrl (s : Str) : Prop :=
  ∃ scheme tail, s = scheme ++ str "://" ++ tail ∧
    validScheme scheme = true ∧ tail ≠ []

/-- Project rule: a truthy `demo_url` failing URL validation errors with the
literal value. -/
def projDemoE (fn : Str) (fm : Fields) : List Str :=
  let d := getField fm (str "demo_url")
  if truthy d && !isValidUrl (valueStrOpt d) then
    [fn ++ str ": Invalid demo_url: " ++ valueStrOpt d]
  else []

/-- Project rule: a truthy `github_url` failing URL validation errors with the
literal value. -/
def projGithubE (fn : Str) (fm : Fields) : List Str :=
  let d := getField fm (str "github_url")
  if truthy d && !isValidUrl (valueStrOpt d) then
    [fn ++ str ": Invalid github_url: " ++ valueStrOpt d]
  else []

/-- Project rule: a trimmed body shorter than 200 characters warns with the
literal length. -/
def projLenW (fn : Str) (content : Str) : List Str :=
  if (trim content).length < 200 then
    [fn ++ str ": Project details are very short (" ++ natStr (trim content).length
      ++ str " characters)"]
  else []

/-- `validateProject` (lines 110-158): returns the errors and warnings this
document appends, in push order. -/
def validateProject (ctx : Ctx) (fn : Str) (doc : Str) : List Str × List Str :=
  match parseFrontmatter doc with
  | (none, _) => ([fn ++ str ": Missing or invalid frontmatter"], [])
  | (some fm, content) =>
    (projTitleE fn fm ++ projDescE fn fm ++ projDemoE fn fm ++ projGithubE fn fm,
     projTechW fn fm ++ projImageW ctx fn fm ++ projUrlW fn fm
       ++ projLenW fn content)

/-- The filesystem contents a run sees: whether each content directory
exists, and the directory listings as (filename, file contents) pairs. -/
structure Env : Type where
  blogDirExists : Bool
  projDirExists : Bool
  blogFiles : List (Str × Str)
  projFiles : List (Str × Str)

/-- Keep the directory entries ending in `.md` (the `filter` on line 180). -/
def mdFiles (files : List (Str × Str)) : List (Str × Str) :=
  files.filter (fun p => (str ".md").isSuffixOf p.1)

/-- `validateBlogPosts` (lines 175-193): a missing directory is one error; an
empty listing is one warning; otherwise each `.md` file is validated with the
`blog/`-prefixed name and findings are accumulated in order. -/
def validateBlogPosts (ctx : Ctx) (env : Env) : List Str × List Str :=
  if !env.blogDirExists then ([str "Blog directory not found"], [])
  else
    let files := mdFiles env.blogFiles
    if files.isEmpty then ([], [str "No blog posts found"])
    else
      files.foldl
        (fun acc p =>
          let r := validateBlogPost ctx (str "blog/" ++ p.1) p.2
          (acc.1 ++ r.1, acc.2 ++ r.2))
        ([], [])

/-- `validateProjects` (lines 198-216), mirroring `validateBlogPosts`. -/
def validateProjects (ctx : Ctx) (env : Env) : List Str × List Str :=
  if !env.projDirExists then ([str "Projects directory not found"], [])
  else
    let files := mdFiles env.projFiles
    if files.isEmpty then ([], [str "No projects found"])
    else
      files.foldl
        (fun acc p =>
          let r := validateProject ctx (str "projects/" ++ p.1) p.2
          (acc.1 ++ r.1, acc.2 ++ r.2))
        ([], [])

/-- `main` (lines 221-251), accumulation part: blog findings then project
findings, into the shared error and warning buckets. -/
def runValidation (ctx : Ctx) (env : Env) : List Str × List Str :=
  let b := validateBlogPosts ctx env
  let p := validateProjects ctx env
  (b.1 ++ p.1, b.2 ++ p.2)

/-- Lines 248-250: `process.exit(1)` when errors were recorded, otherwise the
process ends normally with status 0. Warnings are not consulted. -/
def exitCode (errors : List Str) : Nat :=
  if errors.length > 0 then 1 else 0

/-- Serialization of a field value back to header text. Modelled from the
spec: the source has no serializer; the round-trip property presumes the
evident one (scalars verbatim, lists bracketed with comma-joined elements). -/
def serializeValue (v : Value) : Str :=
  match v with
  | Value.scalar s => s
  | Value.list xs => '[' :: List.intercalate [','] xs ++ [']']

/-- Serialization of one field to a `key: value` line. Modelled from the
spec (no serializer in the source). -/
def serializeLine (p : Str × Value) : Str :=
  p.1 ++ str ": " ++ serializeValue p.2

/-- Serialization of a field mapping to header lines joined by newlines.
Modelled from the spec (no serializer in the source). -/
def serializeFields (m : Fields) : Str :=
  List.intercalate ['\n'] (m.map serializeLine)

/-- A parsed field name that serialization can reproduce: trimmed, without a
colon (the separator) and without a newline (the line separator). -/
def wfKey (k : Str) : Prop := trim k = k ∧ ':' ∉ k ∧ '\n' ∉ k

/-- A parsed scalar that serialization can reproduce: a fixed point of
trimming and quote-stripping, newline-free, and not bracket-shaped (else the
reparse would turn it into a list). -/
def wfScalar (s : Str) : Prop :=
  trim s = s ∧ stripQuotes s = s ∧ '\n' ∉ s ∧
    ¬(s.head? = some '[' ∧ s.getLast? = some ']')

/-- A parsed list element that serialization can reproduce: a fixed point of
trimming and quote-stripping, newline-free and comma-free. -/
def wfElem (e : Str) : Prop :=
  trim e = e ∧ stripQuotes e = e ∧ '\n' ∉ e ∧ ',' ∉ e

/-- A parsed field value that serialization can reproduce. -/
def wfValue : Value → Prop
  | Value.scalar s => wfScalar s
  | Value.list xs => xs ≠ [] ∧ ∀ e ∈ xs, wfElem e

/-! Helper lemmas about the quote-stripping pass. -/

theorem stripLead_cons_quote (c : Char) (s : Str) (h : isQuote c = true) :
    stripLead (c :: s) = s := by
  simp [stripLead, h]

theorem stripLead_cons_nonquote (c : Char) (s : Str) (h : isQuote c = false) :
    stripLead (c :: s) = c :: s := by
  simp [stripLead, h]

theorem stripTrail_concat_quote (c : Char) (s : Str) (h : isQuote c = true) :
    stripTrail (s ++ [c]) = s := by
  simp [stripTrail, List.getLast?_concat, h]

theorem stripTrail_of_last_nonquote (s : Str)
    (h : s.getLast?.all (fun c => !isQuote c) = true) : stripTrail s = s := by
  rcases List.eq_nil_or_concat s with rfl | ⟨t, c, rfl⟩
  · rfl
  · simp only [List.concat_eq_append, List.getLast?_concat, Option.all_some,
      Bool.not_eq_true'] at h
    simp [stripTrail, List.getLast?_concat, h]

/-- C2 (counterexample): the claim says a value with a quote on only one side
keeps its quotes, and that mismatched quote characters at the two ends are
kept; in fact line 48's replacement strips one leading and one trailing quote
independently, so `"hello` parses to `hello` (not to `"hello`) and the
mismatched `"hello'` parses to `hello` as well. -/
theorem c2_counterexample :
    parseValue (str "\"hello") ≠ Value.scalar (str "\"hello") ∧
    parseValue (str "\"hello") = Value.scalar (str "hello") ∧
    parseValue (str "\"hello\x27") = Value.scalar (str "hello") := by
  decide

/-- C2 (amended): scalar values are trimmed and then quote-stripped in a
single pass that removes one leading quote if present and one trailing quote
if present, independently: a matching or a mismatched outer quote pair is
stripped, a one-sided outer quote is stripped as well, and only one strip pass
happens, so a doubly-quoted value retains the inner quote characters (e.g.
`"hello"` parses to `hello` and `'it''s'` parses to `it''s`). -/
theorem c2_quote_strip_amended (s : Str) (c1 c2 : Char)
    (h1 : isQuote c1 = true) (h2 : isQuote c2 = true) :
    stripQuotes (c1 :: (s ++ [c2])) = s ∧
    (s.getLast?.all (fun c => !isQuote c) = true → stripQuotes (c1 :: s) = s) ∧
    (s.head?.all (fun c => !isQuote c) = true → stripQuotes (s ++ [c2]) = s) ∧
    parseValue (str " \"hello\" ") = Value.scalar (str "hello") ∧
    parseValue (str "\x27it\x27\x27s\x27") = Value.scalar (str "it\x27\x27s") := by
  refine ⟨?_, ?_, ?_, by decide, by decide⟩
  · rw [stripQuotes, stripLead_cons_quote _ _ h1, stripTrail_concat_quote _ _ h2]
  · intro h
    rw [stripQuotes, stripLead_cons_quote _ _ h1, stripTrail_of_last_nonquote _ h]
  · intro h
    cases s with
    | nil =>
      rw [stripQuotes, List.nil_append, stripLead_cons_quote _ _ h2]
      rfl
    | cons a t =>
      simp only [List.head?_cons, Option.all_some, Bool.not_eq_true'] at h
      rw [stripQuotes, List.cons_append, stripLead_cons_nonquote _ _ h,
        ← List.cons_append, stripTrail_concat_quote _ _ h2]

/-- C2 (witness): the amended quote-stripping theorem applied to the inner
string `it`, a leading double quote and a trailing single quote. -/
theorem c2_quote_strip_amended_witness :
    (isQuote '"' = true ∧ isQuote (Char.ofNat 39) = true) ∧
    (stripQuotes ('"' :: (str "it" ++ [Char.ofNat 39])) = str "it" ∧
      ((str "it").getLast?.all (fun c => !isQuote c) = true →
        stripQuotes ('"' :: str "it") = str "it") ∧
      ((str "it").head?.all (fun c => !isQuote c) = true →
        stripQuotes (str "it" ++ [Char.ofNat 39]) = str "it") ∧
      parseValue (str " \"hello\" ") = Value.scalar (str "hello") ∧
      parseValue (str "\x27it\x27\x27s\x27") = Value.scalar (str "it\x27\x27s")) :=
  ⟨by decide, c2_quote_strip_amended (str "it") '"' (Char.ofNat 39) (by decide) (by decide)⟩

/-! Helper lemmas about the frontmatter pattern match. -/

theorem fmSplitAux_sound (t h b : Str) (hs : fmSplitAux t = some (h, b)) :
    h ≠ [] ∧ t = h ++ fmSep ++ b := by
  induction t generalizing h b with
  | nil => exact absurd hs (by simp [fmSplitAux])
  | cons c rest ih =>
    rw [fmSplitAux] at hs
    by_cases hp : fmSep.isPrefixOf rest
    · rw [if_pos hp, Option.some.injEq, Prod.mk.injEq] at hs
      obtain ⟨u, hu⟩ := List.isPrefixOf_iff_prefix.mp hp
      refine ⟨hs.1 ▸ List.cons_ne_nil c [], ?_⟩
      have hdrop : rest.drop 5 = u := by
        rw [← hu, show (5 : Nat) = fmSep.length from rfl, List.drop_left]
      rw [← hs.1, ← hs.2, hdrop, ← hu]
      rfl
    · rw [if_neg hp] at hs
      rcases hm : fmSplitAux rest with - | p
      · rw [hm] at hs; exact absurd hs (by simp)
      · rw [hm] at hs
        simp only [Option.map_some'] at hs
        obtain ⟨h1, hrest⟩ := ih p.1 p.2 (by rw [hm])
        injection hs with hpair
        injection hpair with hh hb
        subst hh hb
        simp [hrest]

/-- C1: for every raw text that does not decompose as a leading `---` line,
a nonempty header run, a line that is solely `---` followed by a newline, and
the rest, `parseFrontmatter` returns `null` fields and a body equal to the
original input, character for character. -/
theorem c1_parse_no_match (content : Str)
    (h : ¬ ∃ H B, H ≠ ([] : Str) ∧
      content = str "---\n" ++ H ++ str "\n---\n" ++ B) :
    parseFrontmatter content = (none, content) := by
  rcases hm : fmMatch content with - | p
  · rw [parseFrontmatter, hm]
  · exfalso
    rw [fmMatch] at hm
    by_cases hp : fmDelim.isPrefixOf content
    · rw [if_pos hp] at hm
      obtain ⟨u, hu⟩ := List.isPrefixOf_iff_prefix.mp hp
      have hdrop : content.drop 4 = u := by
        rw [← hu, show (4 : Nat) = fmDelim.length from rfl, List.drop_left]
      obtain ⟨h1, hsplit⟩ := fmSplitAux_sound _ p.1 p.2 (by rw [hm])
      have hu2 : u = p.1 ++ fmSep ++ p.2 := by rw [← hdrop, hsplit]
      exact h ⟨p.1, p.2, h1, by rw [← hu, hu2]; rfl⟩
    · rw [if_neg hp] at hm
      exact Option.noConfusion hm

/-- C1 (witness): the plain text `hello` admits no such decomposition, and
`parseFrontmatter` returns `null` fields and the input itself on it. -/
theorem c1_parse_no_match_witness :
    (¬ ∃ H B, H ≠ ([] : Str) ∧
      str "hello" = str "---\n" ++ H ++ str "\n---\n" ++ B) ∧
    parseFrontmatter (str "hello") = (none, str "hello") := by
  have hno : ¬ ∃ H B, H ≠ ([] : Str) ∧
      str "hello" = str "---\n" ++ H ++ str "\n---\n" ++ B := by
    rintro ⟨H, B, -, heq⟩
    rw [show str "hello" = 'h' :: str "ello" from rfl,
      show str "---\n" = '-' :: str "--\n" from rfl] at heq
    simp only [List.cons_append] at heq
    injection heq with hhd _
    exact absurd hhd (by decide)
  exact ⟨hno, c1_parse_no_match (str "hello") hno⟩

/-! Helper lemmas about line splitting and object field semantics. -/

theorem colonSplit_of_no_colon (s : Str) (h : ∀ c ∈ s, c ≠ ':') :
    colonSplit s = none := by
  induction s with
  | nil => rfl
  | cons c rest ih =>
    rw [colonSplit, if_neg (h c (List.mem_cons_self c rest))]
    rw [ih (fun d hd => h d (List.mem_cons_of_mem c hd))]
    rfl

theorem colonSplit_first (pre post : Str) (h : ':' ∉ pre) :
    colonSplit (pre ++ ':' :: post) = some (pre, post) := by
  induction pre with
  | nil => simp [colonSplit]
  | cons c rest ih =>
    have hc : ¬ c = ':' := by
      intro hc
      exact h (by rw [hc]; exact List.mem_cons_self _ _)
    rw [List.cons_append, colonSplit, if_neg hc]
    rw [ih (fun hm => h (List.mem_cons_of_mem c hm))]
    rfl

theorem find?_map_overwrite (m : Fields) (k : Str) (v : Value)
    (ha : m.any (fun p => p.1 = k) = true) :
    (m.map (fun p => if p.1 = k then (k, v) else p)).find? (fun p => p.1 = k)
      = some (k, v) := by
  induction m with
  | nil => simp at ha
  | cons a m ih =>
    rw [List.map_cons]
    by_cases hk : a.1 = k
    · rw [if_pos hk, List.find?_cons_of_pos _ (by simp)]
    · rw [if_neg hk, List.find?_cons_of_neg _ (by simpa using hk)]
      simp only [List.any_cons, Bool.or_eq_true] at ha
      rcases ha with h | h
      · exact absurd (by simpa using h) hk
      · exact ih h

theorem find?_append_fresh (m : Fields) (k : Str) (v : Value)
    (ha : ¬ m.any (fun p => p.1 = k) = true) :
    (m ++ [(k, v)]).find? (fun p => p.1 = k) = some (k, v) := by
  have hnone : m.find? (fun p => p.1 = k) = none := by
    rw [List.find?_eq_none]
    intro x hx hpx
    exact ha (List.any_eq_true.mpr ⟨x, hx, hpx⟩)
  have hpos : (fun (p : Str × Value) => decide (p.1 = k)) (k, v) = true := by simp
  rw [List.find?_append, hnone, Option.none_or,
    @List.find?_cons_of_pos _ (fun p => decide (p.1 = k)) (k, v) [] hpos]

theorem find?_map_preserve (m : Fields) (k k' : Str) (v : Value) (hne : k' ≠ k) :
    (m.map (fun p => if p.1 = k then (k, v) else p)).find? (fun p => p.1 = k')
      = m.find? (fun p => p.1 = k') := by
  induction m with
  | nil => rfl
  | cons a m ih =>
    rw [List.map_cons]
    by_cases hk : a.1 = k
    · have hkk' : ¬ k = k' := fun h => hne h.symm
      have hak' : ¬ a.1 = k' := by rw [hk]; exact hkk'
      rw [if_pos hk, List.find?_cons_of_neg _ (by simpa using hkk'),
        List.find?_cons_of_neg _ (by simpa using hak')]
      exact ih
    · by_cases hk' : a.1 = k'
      · rw [if_neg hk, List.find?_cons_of_pos _ (by simpa using hk'),
          List.find?_cons_of_pos _ (by simpa using hk')]
      · rw [if_neg hk, List.find?_cons_of_neg _ (by simpa using hk'),
          List.find?_cons_of_neg _ (by simpa using hk')]
        exact ih

theorem find?_append_ne (m : Fields) (k k' : Str) (v : Value) (hne : k' ≠ k) :
    (m ++ [(k, v)]).find? (fun p => p.1 = k') = m.find? (fun p => p.1 = k') := by
  have hneg : ¬ (fun (p : Str × Value) => decide (p.1 = k')) (k, v) = true := by
    simpa using fun h : k = k' => hne h.symm
  rw [List.find?_append,
    @List.find?_cons_of_neg _ (fun p => decide (p.1 = k')) (k, v) [] hneg,
    List.find?_nil, Option.or_none]

theorem getField_setField_self (m : Fields) (k : Str) (v : Value) :
    getField (setField m k v) k = some v := by
  rw [setField]
  by_cases ha : m.any (fun p => p.1 = k) = true
  · rw [if_pos ha, getField, find?_map_overwrite m k v ha]
    rfl
  · rw [if_neg ha, getField, find?_append_fresh m k v ha]
    rfl

theorem getField_setField_ne (m : Fields) (k k' : Str) (v : Value)
    (hne : k' ≠ k) : getField (setField m k v) k' = getField m k' := by
  rw [setField]
  by_cases ha : m.any (fun p => p.1 = k) = true
  · rw [if_pos ha, getField, find?_map_preserve m k k' v hne, getField]
  · rw [if_neg ha, getField, find?_append_ne m k k' v hne, getField]

/-- C4: for every header line, only the first colon separates key from value:
a line without a colon is skipped silently, otherwise the trimmed text before
the first colon is the field name and the parsed value comes from the text
after it (later colons are inert because the tail is arbitrary), and a
repeated field name keeps only the last value, without error, while other
fields are untouched. -/
theorem c4_first_colon_and_last_wins (m : Fields) (line pre post : Str)
    (k : Str) (v1 v2 : Value) :
    ((∀ c ∈ line, c ≠ ':') → parseLine m line = m) ∧
    (':' ∉ pre →
      parseLine m (pre ++ ':' :: post) = setField m (trim pre) (parseValue post)) ∧
    getField (setField (setField m k v1) k v2) k = some v2 ∧
    (∀ k', k' ≠ k → getField (setField m k v1) k' = getField m k') := by
  refine ⟨fun h => ?_, fun h => ?_, getField_setField_self _ _ _,
    fun k' h => getField_setField_ne _ _ _ _ h⟩
  · rw [parseLine, colonSplit_of_no_colon line h]
  · rw [parseLine, colonSplit_first pre post h]

/-- C4 (witness): the colon-handling theorem applied to a concrete object,
the colon-free line `plain`, and the line `url: http://x` whose second colon
is inert. -/
theorem c4_first_colon_and_last_wins_witness :
    ((∀ c ∈ str "plain", c ≠ ':') ∧ ':' ∉ str "url" ∧
      (str "b" : Str) ≠ str "a") ∧
    ((∀ c ∈ str "plain", c ≠ ':') → parseLine [] (str "plain") = []) ∧
    (':' ∉ str "url" →
      parseLine [] (str "url" ++ ':' :: str " http://x")
        = setField [] (trim (str "url")) (parseValue (str " http://x"))) ∧
    getField (setField (setField [] (str "a") (Value.scalar (str "1")))
      (str "a") (Value.scalar (str "2"))) (str "a")
      = some (Value.scalar (str "2")) ∧
    (∀ k', k' ≠ str "a" →
      getField (setField [] (str "a") (Value.scalar (str "1"))) k'
        = getField [] k') := by
  refine ⟨⟨by decide, by decide, by decide⟩, ?_⟩
  exact c4_first_colon_and_last_wins [] (str "plain") (str "url")
    (str " http://x") (str "a") (Value.scalar (str "1")) (Value.scalar (str "2"))

/-! Helper lemmas about trimming. -/

theorem trimL_cons_of_not_ws (c : Char) (s : Str) (hc : isWS c = false) :
    trimL (c :: s) = c :: s := by
  simp [trimL, List.dropWhile_cons, hc]

theorem trimR_concat_of_not_ws (d : Char) (s : Str) (hd : isWS d = false) :
    trimR (s ++ [d]) = s ++ [d] := by
  rw [trimR, List.reverse_append]
  simp only [List.reverse_cons, List.reverse_nil, List.nil_append,
    List.singleton_append, List.dropWhile_cons, hd]
  simp

theorem trim_of_ends (c d : Char) (s : Str) (hc : isWS c = false)
    (hd : isWS d = false) : trim ((c :: s) ++ [d]) = (c :: s) ++ [d] := by
  rw [trim, List.cons_append, trimL_cons_of_not_ws _ _ hc, ← List.cons_append,
    trimR_concat_of_not_ws _ _ hd]

theorem parseValue_bracket (elems : List Str) (hne : elems ≠ [])
    (hcomma : ∀ e ∈ elems, ',' ∉ e)
    (htrim : ∀ e ∈ elems, trim e = e)
    (hstrip : ∀ e ∈ elems, stripQuotes e = e) :
    parseValue ('[' :: List.intercalate [','] elems ++ [']'])
      = Value.list elems := by
  have hval : stripQuotes (trim ('[' :: List.intercalate [','] elems ++ [']']))
      = '[' :: List.intercalate [','] elems ++ [']'] := by
    rw [trim_of_ends '[' ']' _ (by decide) (by decide), stripQuotes,
      List.cons_append, stripLead_cons_nonquote _ _ (by decide),
      ← List.cons_append]
    refine stripTrail_of_last_nonquote _ ?_
    rw [List.getLast?_concat]
    decide
  rw [parseValue, hval]
  rw [if_pos ⟨by rw [List.cons_append]; rfl, by rw [List.getLast?_concat]⟩]
  have hdrop : ('[' :: List.intercalate [','] elems ++ [']']).drop 1
      = List.intercalate [','] elems ++ [']'] := rfl
  rw [hdrop, List.dropLast_concat, List.splitOn_intercalate elems ',' hcomma hne]
  have hmap : elems.map (fun e => stripQuotes (trim e)) = elems := by
    have : elems.map (fun e => stripQuotes (trim e)) = elems.map id := by
      refine List.map_congr_left ?_
      intro e he
      rw [htrim e he, hstrip e he, id]
    rw [this, List.map_id]
  rw [hmap]

/-- C3: a value whose trimmed, quote-stripped form starts with `[` and ends
with `]` parses to the list obtained by stripping the bracket pair, splitting
on commas and trimming and quote-stripping each element: bracketing any
comma-joined sequence of clean elements recovers exactly that sequence;
concretely `[a, b, c]` parses to the ordered three-element list and `[]`
parses to a one-element list holding the empty string, not to an empty
list. -/
theorem c3_list_value (elems : List Str) (hne : elems ≠ [])
    (hcomma : ∀ e ∈ elems, ',' ∉ e)
    (htrim : ∀ e ∈ elems, trim e = e)
    (hstrip : ∀ e ∈ elems, stripQuotes e = e) :
    parseValue ('[' :: List.intercalate [','] elems ++ [']']) = Value.list elems ∧
    parseValue (str "[a, b, c]") = Value.list [str "a", str "b", str "c"] ∧
    parseValue (str "[]") = Value.list [[]] ∧
    ([([] : Str)] : List Str).length = 1 :=
  ⟨parseValue_bracket elems hne hcomma htrim hstrip, by decide, by decide,
    by decide⟩

/-- C3 (witness): the list-value theorem applied to the two clean elements
`a` and `b`, whose bracketed comma-join `[a,b]` parses back to exactly that
two-element list. -/
theorem c3_list_value_witness :
    (([str "a", str "b"] : List Str) ≠ [] ∧
      (∀ e ∈ [str "a", str "b"], ',' ∉ e) ∧
      (∀ e ∈ [str "a", str "b"], trim e = e) ∧
      (∀ e ∈ [str "a", str "b"], stripQuotes e = e)) ∧
    (parseValue ('[' :: List.intercalate [','] [str "a", str "b"] ++ [']'])
        = Value.list [str "a", str "b"] ∧
      parseValue (str "[a, b, c]") = Value.list [str "a", str "b", str "c"] ∧
      parseValue (str "[]") = Value.list [[]] ∧
      ([([] : Str)] : List Str).length = 1) :=
  ⟨⟨by decide, by decide, by decide, by decide⟩,
    c3_list_value [str "a", str "b"] (by decide) (by decide) (by decide) (by decide)⟩

/-! Helper lemmas for the nonempty-list invariant of the parser. -/

theorem parseValue_list_ne_nil (raw : Str) (xs : List Str)
    (h : parseValue raw = Value.list xs) : xs ≠ [] := by
  rw [parseValue] at h
  by_cases hc : (stripQuotes (trim raw)).head? = some '[' ∧
      (stripQuotes (trim raw)).getLast? = some ']'
  · rw [if_pos hc] at h
    injection h with hxs
    intro hnil
    rw [hnil, List.map_eq_nil_iff] at hxs
    have := List.splitOnP_ne_nil (· == ',')
      (((stripQuotes (trim raw)).drop 1).dropLast)
    rw [List.splitOn] at hxs
    exact this hxs
  · rw [if_neg hc] at h
    exact absurd h (by simp)

theorem parseLine_preserves_lists_ne_nil (m : Fields) (line : Str)
    (hm : ∀ k xs, getField m k = some (Value.list xs) → xs ≠ []) :
    ∀ k xs, getField (parseLine m line) k = some (Value.list xs) → xs ≠ [] := by
  intro k xs hget
  rw [parseLine] at hget
  rcases hcs : colonSplit line with - | p
  · rw [hcs] at hget
    exact hm k xs hget
  · rw [hcs] at hget
    by_cases hk : k = trim p.1
    · rw [hk, getField_setField_self] at hget
      injection hget with hv
      exact parseValue_list_ne_nil p.2 xs hv
    · rw [getField_setField_ne _ _ _ _ hk] at hget
      exact hm k xs hget

theorem foldl_parseLine_preserves (lines : List Str) (m : Fields)
    (hm : ∀ k xs, getField m k = some (Value.list xs) → xs ≠ []) :
    ∀ k xs, getField (lines.foldl parseLine m) k = some (Value.list xs) →
      xs ≠ [] := by
  induction lines generalizing m with
  | nil => exact hm
  | cons line lines ih =>
    rw [List.foldl_cons]
    exact ih _ (parseLine_preserves_lists_ne_nil m line hm)

theorem parseHeader_lists_ne_nil (h : Str) :
    ∀ k xs, getField (parseHeader h) k = some (Value.list xs) → xs ≠ [] := by
  rw [parseHeader]
  exact foldl_parseLine_preserves _ []
    (fun k xs hget => absurd hget (by simp [getField]))

/-- C10: every list value produced by the frontmatter parser has at least one
element (splitting on commas never yields zero pieces), so on a parsed
document the blog empty-tags warning can never fire, and the project
technologies warning is triggered exactly by the absent-or-not-a-list cases,
never by an empty parsed list. -/
theorem c10_parser_lists_nonempty (doc : Str) (fm : Fields) (body : Str)
    (hp : parseFrontmatter doc = (some fm, body)) :
    (∀ k xs, getField fm k = some (Value.list xs) → xs ≠ []) ∧
    (∀ fn, blogTagsW fn fm = []) ∧
    (∀ fn, projTechW fn fm = [] ↔
      ∃ xs, getField fm (str "technologies") = some (Value.list xs)) := by
  have hfm : ∀ k xs, getField fm k = some (Value.list xs) → xs ≠ [] := by
    rw [parseFrontmatter] at hp
    rcases hm : fmMatch doc with - | p
    · rw [hm] at hp
      exact absurd hp (by simp)
    · rw [hm] at hp
      injection hp with h1 h2
      injection h1 with h1
      rw [← h1]
      exact parseHeader_lists_ne_nil p.1
  refine ⟨hfm, fun fn => ?_, fun fn => ?_⟩
  · rw [blogTagsW]
    rcases ht : getField fm (str "tags") with - | v
    · rfl
    · rcases v with s | xs
      · rfl
      · have hne := hfm _ _ ht
        have hlen : ¬ xs.length = 0 := fun h0 => hne (List.length_eq_zero.mp h0)
        simp [hlen]
  · rw [projTechW]
    rcases ht : getField fm (str "technologies") with - | v
    · simp
    · rcases v with s | xs
      · simp
      · have hne := hfm _ _ ht
        have hlen : ¬ xs.length = 0 := fun h0 => hne (List.length_eq_zero.mp h0)
        simp [hlen]

/-- C10 (witness): the invariant theorem applied to a concrete document whose
tags and technologies fields are bracket lists. -/
theorem c10_parser_lists_nonempty_witness :
    parseFrontmatter (str "---\ntags: [x]\ntechnologies: [a]\n---\nbody")
      = (some [(str "tags", Value.list [str "x"]),
          (str "technologies", Value.list [str "a"])], str "body") ∧
    ((∀ k xs, getField [(str "tags", Value.list [str "x"]),
        (str "technologies", Value.list [str "a"])] k
          = some (Value.list xs) → xs ≠ []) ∧
      (∀ fn, blogTagsW fn [(str "tags", Value.list [str "x"]),
        (str "technologies", Value.list [str "a"])] = []) ∧
      (∀ fn, projTechW fn [(str "tags", Value.list [str "x"]),
          (str "technologies", Value.list [str "a"])] = [] ↔
        ∃ xs, getField [(str "tags", Value.list [str "x"]),
          (str "technologies", Value.list [str "a"])] (str "technologies")
            = some (Value.list xs))) :=
  ⟨by decide,
    c10_parser_lists_nonempty (str "---\ntags: [x]\ntechnologies: [a]\n---\nbody")
      [(str "tags", Value.list [str "x"]),
        (str "technologies", Value.list [str "a"])] (str "body") (by decide)⟩

/-! Helper lemmas for the validators and the run model. -/

theorem validateBlogPost_parsed (ctx : Ctx) (fn doc : Str) (fm : Fields)
    (body : Str) (hp : parseFrontmatter doc = (some fm, body)) :
    validateBlogPost ctx fn doc =
      (blogTitleE fn fm ++ blogDateE fn fm ++ blogDateFmtE ctx fn fm,
       blogExcerptW fn fm ++ blogImageW ctx fn fm ++ blogLenW fn body
         ++ blogTagsW fn fm) := by
  rw [validateBlogPost, hp]

theorem validateProject_parsed (ctx : Ctx) (fn doc : Str) (fm : Fields)
    (body : Str) (hp : parseFrontmatter doc = (some fm, body)) :
    validateProject ctx fn doc =
      (projTitleE fn fm ++ projDescE fn fm ++ projDemoE fn fm
         ++ projGithubE fn fm,
       projTechW fn fm ++ projImageW ctx fn fm ++ projUrlW fn fm
         ++ projLenW fn body) := by
  rw [validateProject, hp]

theorem runValidation_single_blog (ctx : Ctx) (name doc : Str)
    (hmd : (str ".md").isSuffixOf name = true) :
    runValidation ctx ⟨true, true, [(name, doc)], []⟩ =
      ((validateBlogPost ctx (str "blog/" ++ name) doc).1,
       (validateBlogPost ctx (str "blog/" ++ name) doc).2
         ++ [str "No projects found"]) := by
  rw [runValidation, validateBlogPosts, validateProjects]
  simp [mdFiles, hmd]

/-- C5: a blog document whose frontmatter parses to a non-null mapping with a
truthy title and no date field yields exactly one error, whose message
contains `date`, and a run whose content is only that document exits with
code 1. -/
theorem c5_blog_missing_date (ctx : Ctx) (fn doc name : Str) (fm : Fields)
    (body : Str) (hp : parseFrontmatter doc = (some fm, body))
    (ht : truthy (getField fm (str "title")) = true)
    (hd : getField fm (str "date") = none)
    (hmd : (str ".md").isSuffixOf name = true) :
    (validateBlogPost ctx fn doc).1
        = [fn ++ str ": Missing required field \x27date\x27"] ∧
    (str "date") <:+: (fn ++ str ": Missing required field \x27date\x27") ∧
    exitCode (runValidation ctx ⟨true, true, [(name, doc)], []⟩).1 = 1 := by
  have herr : ∀ g : Str, (validateBlogPost ctx g doc).1
      = [g ++ str ": Missing required field \x27date\x27"] := by
    intro g
    rw [validateBlogPost_parsed ctx g doc fm body hp]
    have htn : truthy (none : Option Value) = false := rfl
    simp [blogTitleE, blogDateE, blogDateFmtE, ht, hd, htn]
  refine ⟨herr fn, ?_, ?_⟩
  · exact (show (str "date") <:+: str ": Missing required field \x27date\x27"
        by decide).trans (List.suffix_append fn _).isInfix
  · rw [runValidation_single_blog ctx name doc hmd]
    rw [herr (str "blog/" ++ name)]
    rfl

/-- C5 (witness): the missing-date theorem applied to the concrete document
`---`, `title: Hello`, `---`, `body` under the name `post.md`. -/
theorem c5_blog_missing_date_witness :
    (parseFrontmatter (str "---\ntitle: Hello\n---\nbody")
        = (some [(str "title", Value.scalar (str "Hello"))], str "body") ∧
      truthy (getField [(str "title", Value.scalar (str "Hello"))]
        (str "title")) = true ∧
      getField [(str "title", Value.scalar (str "Hello"))] (str "date") = none ∧
      (str ".md").isSuffixOf (str "post.md") = true) ∧
    ((validateBlogPost ⟨fun _ => false, fun _ => false⟩ (str "blog.md")
        (str "---\ntitle: Hello\n---\nbody")).1
        = [str "blog.md" ++ str ": Missing required field \x27date\x27"] ∧
      (str "date") <:+:
        (str "blog.md" ++ str ": Missing required field \x27date\x27") ∧
      exitCode (runValidation ⟨fun _ => false, fun _ => false⟩
        ⟨true, true, [(str "post.md", str "---\ntitle: Hello\n---\nbody")],
          []⟩).1 = 1) :=
  ⟨⟨by decide, by decide, by decide, by decide⟩,
    c5_blog_missing_date ⟨fun _ => false, fun _ => false⟩ (str "blog.md")
      (str "---\ntitle: Hello\n---\nbody") (str "post.md")
      [(str "title", Value.scalar (str "Hello"))] (str "body")
      (by decide) (by decide) (by decide) (by decide)⟩

/-- C8: the exit code is 0 exactly when no errors were recorded and 1 exactly
when at least one error was recorded; warnings are not consulted, so runs with
equal error lists share their exit code. -/
theorem c8_exit_code (ctx : Ctx) (env : Env) :
    (exitCode (runValidation ctx env).1 = 0 ↔ (runValidation ctx env).1 = []) ∧
    (exitCode (runValidation ctx env).1 = 1 ↔ (runValidation ctx env).1 ≠ []) ∧
    (∀ ctx2 env2, (runValidation ctx env).1 = (runValidation ctx2 env2).1 →
      exitCode (runValidation ctx env).1
        = exitCode (runValidation ctx2 env2).1) := by
  refine ⟨?_, ?_, fun ctx2 env2 h => by rw [h]⟩
  · rcases hE : (runValidation ctx env).1 with - | ⟨e, es⟩
    · simp [exitCode]
    · simp [exitCode]
  · rcases hE : (runValidation ctx env).1 with - | ⟨e, es⟩
    · simp [exitCode]
    · simp [exitCode]

/-- C8 (witness): the exit-code theorem applied to an empty environment. -/
theorem c8_exit_code_witness :
    (exitCode (runValidation ⟨fun _ => false, fun _ => false⟩
        ⟨true, true, [], []⟩).1 = 0 ↔
      (runValidation ⟨fun _ => false, fun _ => false⟩
        ⟨true, true, [], []⟩).1 = []) ∧
    (exitCode (runValidation ⟨fun _ => false, fun _ => false⟩
        ⟨true, true, [], []⟩).1 = 1 ↔
      (runValidation ⟨fun _ => false, fun _ => false⟩
        ⟨true, true, [], []⟩).1 ≠ []) ∧
    (∀ ctx2 env2,
      (runValidation ⟨fun _ => false, fun _ => false⟩
        ⟨true, true, [], []⟩).1 = (runValidation ctx2 env2).1 →
      exitCode (runValidation ⟨fun _ => false, fun _ => false⟩
        ⟨true, true, [], []⟩).1 = exitCode (runValidation ctx2 env2).1) :=
  c8_exit_code ⟨fun _ => false, fun _ => false⟩ ⟨true, true, [], []⟩

/-- C7: a project document with no `image` field gets the warning naming no
featured image; a project whose truthy `image` does not resolve on disk gets a
distinct warning naming the literal value; a blog document with no `image`
field receives no image finding at all (its image rule contributes nothing). -/
theorem c7_image_asymmetry (ctx : Ctx) (fn doc : Str) (fm : Fields)
    (body : Str) (hp : parseFrontmatter doc = (some fm, body)) :
    (getField fm (str "image") = none →
      (fn ++ str ": No featured image specified")
        ∈ (validateProject ctx fn doc).2) ∧
    (∀ v, getField fm (str "image") = some v → truthy (some v) = true →
      ctx.fsExists (valueStr v) = false →
      (fn ++ str ": Image not found: " ++ valueStr v)
        ∈ (validateProject ctx fn doc).2) ∧
    (getField fm (str "image") = none → blogImageW ctx fn fm = []) ∧
    (∀ v, fn ++ str ": No featured image specified"
      ≠ fn ++ str ": Image not found: " ++ valueStr v) := by
  refine ⟨fun hnone => ?_, fun v hv htr hfs => ?_, fun hnone => ?_,
    fun v heq => ?_⟩
  · have hI : projImageW ctx fn fm = [fn ++ str ": No featured image specified"] := by
      have htn : truthy (none : Option Value) = false := rfl
      simp [projImageW, hnone, htn]
    rw [validateProject_parsed ctx fn doc fm body hp, hI]
    exact List.mem_append_left _ (List.mem_append_left _
      (List.mem_append_right _ (List.mem_cons_self _ _)))
  · have hI : projImageW ctx fn fm
        = [fn ++ str ": Image not found: " ++ valueStr v] := by
      simp [projImageW, hv, htr, hfs, valueStrOpt]
    rw [validateProject_parsed ctx fn doc fm body hp, hI]
    exact List.mem_append_left _ (List.mem_append_left _
      (List.mem_append_right _ (List.mem_cons_self _ _)))
  · have htn : truthy (none : Option Value) = false := rfl
    simp [blogImageW, hnone, htn]
  · rw [List.append_assoc] at heq
    have h2 : str ": No featured image specified"
        = str ": Image not found: " ++ valueStr v :=
      List.append_cancel_left heq
    have h3 : (str ": No featured image specified")[2]?
        = (str ": Image not found: " ++ valueStr v)[2]? := by rw [h2]
    rw [List.getElem?_append] at h3
    rw [if_pos (by decide)] at h3
    exact absurd h3 (by decide)

/-- C7 (witness): the image-rule theorem applied to a concrete project
document with title only (no image field). -/
theorem c7_image_asymmetry_witness :
    parseFrontmatter (str "---\ntitle: T\n---\nbody")
      = (some [(str "title", Value.scalar (str "T"))], str "body") ∧
    ((getField [(str "title", Value.scalar (str "T"))] (str "image") = none →
      (str "p.md" ++ str ": No featured image specified")
        ∈ (validateProject ⟨fun _ => false, fun _ => false⟩ (str "p.md")
            (str "---\ntitle: T\n---\nbody")).2) ∧
    (∀ v, getField [(str "title", Value.scalar (str "T"))] (str "image")
        = some v → truthy (some v) = true →
      (fun _ => false : Str → Bool) (valueStr v) = false →
      (str "p.md" ++ str ": Image not found: " ++ valueStr v)
        ∈ (validateProject ⟨fun _ => false, fun _ => false⟩ (str "p.md")
            (str "---\ntitle: T\n---\nbody")).2) ∧
    (getField [(str "title", Value.scalar (str "T"))] (str "image") = none →
      blogImageW ⟨fun _ => false, fun _ => false⟩ (str "p.md")
        [(str "title", Value.scalar (str "T"))] = []) ∧
    (∀ v, str "p.md" ++ str ": No featured image specified"
      ≠ str "p.md" ++ str ": Image not found: " ++ valueStr v)) :=
  ⟨by decide,
    c7_image_asymmetry ⟨fun _ => false, fun _ => false⟩ (str "p.md")
      (str "---\ntitle: T\n---\nbody") [(str "title", Value.scalar (str "T"))]
      (str "body") (by decide)⟩

theorem colonSplit_sound (s pre post : Str)
    (h : colonSplit s = some (pre, post)) :
    s = pre ++ ':' :: post ∧ ':' ∉ pre := by
  induction s generalizing pre post with
  | nil => exact absurd h (by simp [colonSplit])
  | cons c rest ih =>
    rw [colonSplit] at h
    by_cases hc : c = ':'
    · rw [if_pos hc] at h
      injection h with hp
      injection hp with h1 h2
      rw [← h1, ← h2, hc]
      exact ⟨rfl, List.not_mem_nil ':'⟩
    · rw [if_neg hc] at h
      rcases hm : colonSplit rest with - | p
      · rw [hm] at h
        exact absurd h (by simp)
      · rw [hm] at h
        simp only [Option.map_some'] at h
        injection h with hp
        injection hp with h1 h2
        obtain ⟨hrest, hnotin⟩ := ih p.1 p.2 (by rw [hm])
        rw [← h1, ← h2]
        constructor
        · rw [List.cons_append, ← hrest]
        · intro hmem
          rcases List.mem_cons.mp hmem with h0 | h0
          · exact hc h0.symm
          · exact hnotin h0

theorem isValidUrl_iff_absolute (s : Str) :
    isValidUrl s = true ↔ IsAbsoluteUrl s := by
  constructor
  · intro h
    rw [isValidUrl] at h
    rcases hcs : colonSplit s with - | p
    · rw [hcs] at h
      exact absurd h (by simp)
    · rw [hcs] at h
      simp only [Bool.and_eq_true, decide_eq_true_eq, Bool.not_eq_true'] at h
      obtain ⟨⟨hscheme, htake⟩, hdrop⟩ := h
      obtain ⟨hs, -⟩ := colonSplit_sound s p.1 p.2 hcs
      refine ⟨p.1, p.2.drop 2, ?_, hscheme, ?_⟩
      · have hp2 : str "//" ++ p.2.drop 2 = p.2 := by
          conv_rhs => rw [← List.take_append_drop 2 p.2]
          rw [htake]
        rw [hs]
        nth_rewrite 1 [← hp2]
        rw [List.append_assoc]
        rfl
      · intro hnil
        rw [hnil] at hdrop
        exact absurd hdrop (by decide)
  · rintro ⟨scheme, tail, hs, hscheme, htail⟩
    have hnc : ':' ∉ scheme := by
      intro hmem
      rcases scheme with - | ⟨c0, rest⟩
      · exact absurd hscheme (by decide)
      · rw [validScheme] at hscheme
        simp only [Bool.and_eq_true] at hscheme
        rcases List.mem_cons.mp hmem with h0 | h0
        · rw [← h0] at hscheme
          exact absurd hscheme.1 (by decide)
        · have := List.all_eq_true.mp hscheme.2 ':' h0
          exact absurd this (by decide)
    have hs2 : s = scheme ++ ':' :: ('/' :: '/' :: tail) := by
      rw [hs, List.append_assoc]
      rfl
    rw [isValidUrl, hs2, colonSplit_first scheme _ hnc]
    rcases tail with - | ⟨t0, ts⟩
    · exact absurd rfl htail
    · simp [hscheme]
      rfl

/-- C6: URL validation accepts exactly the strings that decompose as an
absolute URL with a valid scheme and a nonempty authority (the stand-in for
the platform URL parser, modelled from the spec), rejecting relative paths
and malformed schemes; and a project document whose truthy `demo_url`
(respectively `github_url`) fails it receives an error embedding the literal
offending value. -/
theorem c6_url_validation (ctx : Ctx) (fn doc : Str) (fm : Fields) (body : Str)
    (hp : parseFrontmatter doc = (some fm, body)) :
    (∀ s, isValidUrl s = true ↔ IsAbsoluteUrl s) ∧
    (∀ v, getField fm (str "demo_url") = some v → truthy (some v) = true →
      isValidUrl (valueStr v) = false →
      (fn ++ str ": Invalid demo_url: " ++ valueStr v)
        ∈ (validateProject ctx fn doc).1) ∧
    (∀ v, getField fm (str "github_url") = some v → truthy (some v) = true →
      isValidUrl (valueStr v) = false →
      (fn ++ str ": Invalid github_url: " ++ valueStr v)
        ∈ (validateProject ctx fn doc).1) ∧
    isValidUrl (str "relative/path") = false ∧
    isValidUrl (str "http://example.com") = true := by
  refine ⟨isValidUrl_iff_absolute, fun v hv htr hbad => ?_,
    fun v hv htr hbad => ?_, by decide, by decide⟩
  · have hD : projDemoE fn fm
        = [fn ++ str ": Invalid demo_url: " ++ valueStr v] := by
      simp [projDemoE, hv, htr, hbad, valueStrOpt]
    rw [validateProject_parsed ctx fn doc fm body hp, hD]
    exact List.mem_append_left _ (List.mem_append_right _
      (List.mem_cons_self _ _))
  · have hG : projGithubE fn fm
        = [fn ++ str ": Invalid github_url: " ++ valueStr v] := by
      simp [projGithubE, hv, htr, hbad, valueStrOpt]
    rw [validateProject_parsed ctx fn doc fm body hp, hG]
    exact List.mem_append_right _ (List.mem_cons_self _ _)

/-- C6 (witness): the URL theorem applied to a concrete project document whose
demo and GitHub URLs are the invalid `not-a-url` and `also bad`. -/
theorem c6_url_validation_witness :
    parseFrontmatter (str "---\ndemo_url: not-a-url\ngithub_url: also bad\n---\nb")
      = (some [(str "demo_url", Value.scalar (str "not-a-url")),
          (str "github_url", Value.scalar (str "also bad"))], str "b") ∧
    ((∀ s, isValidUrl s = true ↔ IsAbsoluteUrl s) ∧
    (∀ v, getField [(str "demo_url", Value.scalar (str "not-a-url")),
        (str "github_url", Value.scalar (str "also bad"))] (str "demo_url")
          = some v → truthy (some v) = true →
      isValidUrl (valueStr v) = false →
      (str "proj.md" ++ str ": Invalid demo_url: " ++ valueStr v)
        ∈ (validateProject ⟨fun _ => false, fun _ => false⟩ (str "proj.md")
          (str "---\ndemo_url: not-a-url\ngithub_url: also bad\n---\nb")).1) ∧
    (∀ v, getField [(str "demo_url", Value.scalar (str "not-a-url")),
        (str "github_url", Value.scalar (str "also bad"))] (str "github_url")
          = some v → truthy (some v) = true →
      isValidUrl (valueStr v) = false →
      (str "proj.md" ++ str ": Invalid github_url: " ++ valueStr v)
        ∈ (validateProject ⟨fun _ => false, fun _ => false⟩ (str "proj.md")
          (str "---\ndemo_url: not-a-url\ngithub_url: also bad\n---\nb")).1) ∧
    isValidUrl (str "relative/path") = false ∧
    isValidUrl (str "http://example.com") = true) :=
  ⟨by decide,
    c6_url_validation ⟨fun _ => false, fun _ => false⟩ (str "proj.md")
      (str "---\ndemo_url: not-a-url\ngithub_url: also bad\n---\nb")
      [(str "demo_url", Value.scalar (str "not-a-url")),
        (str "github_url", Value.scalar (str "also bad"))] (str "b")
      (by decide)⟩

/-! Helper lemmas for the serialize/re-parse round trip. -/

theorem trim_cons_space (x : Str) : trim (' ' :: x) = trim x := by
  rw [trim, trim, trimL, trimL, List.dropWhile_cons]
  rfl

theorem parseValue_cons_space (x : Str) :
    parseValue (' ' :: x) = parseValue x := by
  rw [parseValue, parseValue, trim_cons_space]

theorem parseValue_wfScalar (s : Str) (h : wfScalar s) :
    parseValue s = Value.scalar s := by
  obtain ⟨ht, hs, -, hbr⟩ := h
  rw [parseValue, ht, hs, if_neg hbr]

theorem setField_fresh (m : Fields) (k : Str) (v : Value)
    (h : m.any (fun q => q.1 = k) = false) : setField m k v = m ++ [(k, v)] := by
  simp [setField, h]

theorem intercalate_cons_of_ne_nil (sep x : Str) (rest : List Str)
    (hr : rest ≠ []) :
    List.intercalate sep (x :: rest) = x ++ (sep ++ List.intercalate sep rest) := by
  rcases rest with - | ⟨y, zs⟩
  · exact absurd rfl hr
  · rw [List.intercalate, List.intercalate, List.intersperse_cons_cons,
      List.flatten_cons, List.flatten_cons]

theorem mem_intercalate_mem (c : Char) (sep : Str) (xs : List Str)
    (h : c ∈ List.intercalate sep xs) : c ∈ sep ∨ ∃ e ∈ xs, c ∈ e := by
  induction xs with
  | nil => simp [List.intercalate] at h
  | cons x rest ih =>
    rcases rest with - | ⟨y, zs⟩
    · right
      exact ⟨x, List.mem_cons_self _ _, by simpa [List.intercalate] using h⟩
    · rw [intercalate_cons_of_ne_nil _ _ _ (by simp)] at h
      rcases List.mem_append.mp h with h1 | h2
      · right
        exact ⟨x, List.mem_cons_self _ _, h1⟩
      · rcases List.mem_append.mp h2 with h3 | h4
        · exact Or.inl h3
        · rcases ih h4 with h5 | ⟨e, he, hce⟩
          · exact Or.inl h5
          · exact Or.inr ⟨e, List.mem_cons_of_mem _ he, hce⟩

theorem newline_not_mem_serializeLine (p : Str × Value)
    (hk : wfKey p.1) (hv : wfValue p.2) : '\n' ∉ serializeLine p := by
  intro hmem
  rw [serializeLine] at hmem
  rcases List.mem_append.mp hmem with h1 | h2
  · rcases List.mem_append.mp h1 with ha | hb
    · exact hk.2.2 ha
    · exact absurd hb (by decide)
  · rcases hp2 : p.2 with s | xs
    · rw [hp2] at h2 hv
      exact hv.2.2.1 h2
    · rw [hp2] at h2 hv
      rcases List.mem_append.mp h2 with h3 | h4
      · rcases List.mem_cons.mp h3 with h5 | h6
        · exact absurd h5 (by decide)
        · rcases mem_intercalate_mem _ _ _ h6 with h7 | ⟨e, he, hce⟩
          · exact absurd h7 (by decide)
          · exact ((hv.2 e he).2.2.1) hce
      · exact absurd h4 (by decide)

theorem serializeLine_colon_form (p : Str × Value) :
    serializeLine p = p.1 ++ ':' :: (' ' :: serializeValue p.2) := by
  rw [serializeLine, List.append_assoc]
  rfl

theorem parseLine_serializeLine (acc : Fields) (p : Str × Value)
    (hk : wfKey p.1) (hv : wfValue p.2) :
    parseLine acc (serializeLine p) = setField acc p.1 p.2 := by
  rw [serializeLine_colon_form, parseLine, colonSplit_first p.1 _ hk.2.1]
  show setField acc (trim p.1) (parseValue (' ' :: serializeValue p.2))
    = setField acc p.1 p.2
  rw [hk.1, parseValue_cons_space]
  rcases hp2 : p.2 with s | xs
  · rw [hp2] at hv
    have : parseValue (serializeValue (Value.scalar s)) = Value.scalar s :=
      parseValue_wfScalar s hv
    rw [this]
  · rw [hp2] at hv
    obtain ⟨hne, helem⟩ := hv
    have : parseValue (serializeValue (Value.list xs)) = Value.list xs :=
      parseValue_bracket xs hne (fun e he => (helem e he).2.2.2)
        (fun e he => (helem e he).1) (fun e he => (helem e he).2.1)
    rw [this]

theorem splitOn_serializeFields (m : Fields) (hm : m ≠ [])
    (hnl : ∀ p ∈ m, '\n' ∉ serializeLine p) :
    (serializeFields m).splitOn '\n' = m.map serializeLine := by
  rw [serializeFields]
  refine List.splitOn_intercalate (m.map serializeLine) '\n' ?_ ?_
  · intro l hl
    obtain ⟨p, hp, rfl⟩ := List.mem_map.mp hl
    exact hnl p hp
  · simpa using hm

theorem foldl_parseLine_serialize (m : Fields) :
    ∀ acc : Fields, (∀ p ∈ m, wfKey p.1 ∧ wfValue p.2) →
    (m.map Prod.fst).Nodup →
    (∀ p ∈ m, acc.any (fun q => q.1 = p.1) = false) →
    (m.map serializeLine).foldl parseLine acc = acc ++ m := by
  induction m with
  | nil =>
    intro acc _ _ _
    rw [List.map_nil, List.foldl_nil, List.append_nil]
  | cons kv m ih =>
    intro acc hwf hnodup hfresh
    rw [List.map_cons] at hnodup
    obtain ⟨hnotmem, hnodup'⟩ := List.nodup_cons.mp hnodup
    rw [List.map_cons, List.foldl_cons,
      parseLine_serializeLine acc kv (hwf kv (List.mem_cons_self _ _)).1
        (hwf kv (List.mem_cons_self _ _)).2,
      setField_fresh acc kv.1 kv.2 (hfresh kv (List.mem_cons_self _ _))]
    rw [ih (acc ++ [kv]) (fun p hp => hwf p (List.mem_cons_of_mem _ hp)) hnodup'
      (fun p hp => ?_), List.append_assoc, List.singleton_append]
    have hkp : ¬ kv.1 = p.1 := by
      intro hk
      exact hnotmem (hk ▸ List.mem_map.mpr ⟨p, hp, rfl⟩)
    rw [List.any_append, hfresh p (List.mem_cons_of_mem _ hp)]
    simp [hkp]

/-- C9 (counterexample): the header `title: ''x''` parses to a mapping holding
the scalar `'x'`, but serializing that mapping to `title: 'x'` and re-parsing
strips another quote pair and yields the scalar `x` — a different mapping, so
re-parsing the re-serialization is not the identity on all valid headers. -/
theorem c9_counterexample :
    parseHeader (serializeFields (parseHeader (str "title: \x27\x27x\x27\x27")))
      ≠ parseHeader (str "title: \x27\x27x\x27\x27") ∧
    parseHeader (str "title: \x27\x27x\x27\x27")
      = [(str "title", Value.scalar (str "\x27x\x27"))] ∧
    parseHeader (serializeFields (parseHeader (str "title: \x27\x27x\x27\x27")))
      = [(str "title", Value.scalar (str "x"))] := by
  decide

/-- C9 (amended): re-serializing and re-parsing is the identity on parsed
mappings whose entries are fixed points of the parser's normalization: keys
distinct, trimmed and free of colons and newlines, scalars trim- and
quote-strip-invariant, newline-free and not bracket-shaped, and list values
nonempty with trim- and quote-strip-invariant, comma-free, newline-free
elements. Headers whose values still carry outer quotes (or whitespace or
quotes exposed by stripping) are renormalized instead of preserved. -/
theorem c9_roundtrip_amended (m : Fields)
    (hkeys : (m.map Prod.fst).Nodup)
    (hwf : ∀ p ∈ m, wfKey p.1 ∧ wfValue p.2) :
    parseHeader (serializeFields m) = m := by
  rcases m with - | ⟨kv, m'⟩
  · decide
  · rw [parseHeader, splitOn_serializeFields _ (by simp)
      (fun p hp => newline_not_mem_serializeLine p (hwf p hp).1 (hwf p hp).2)]
    rw [foldl_parseLine_serialize _ [] hwf hkeys (fun p hp => rfl)]
    rw [List.nil_append]

/-- C9 (witness): the amended round-trip theorem applied to the mapping with
the single clean entry `title ↦ x`, together with the hypotheses it needs. -/
theorem c9_roundtrip_amended_witness :
    ((([(str "title", Value.scalar (str "x"))] : Fields).map Prod.fst).Nodup ∧
      (∀ p ∈ ([(str "title", Value.scalar (str "x"))] : Fields),
        wfKey p.1 ∧ wfValue p.2)) ∧
    parseHeader (serializeFields [(str "title", Value.scalar (str "x"))])
      = [(str "title", Value.scalar (str "x"))] := by
  have hwf : ∀ p ∈ ([(str "title", Value.scalar (str "x"))] : Fields),
      wfKey p.1 ∧ wfValue p.2 := by
    intro p hp
    rw [List.mem_singleton] at hp
    subst hp
    exact ⟨⟨by decide, by decide, by decide⟩,
      ⟨by decide, by decide, by decide, by decide⟩⟩
  exact ⟨⟨by decide, hwf⟩,
    c9_roundtrip_amended [(str "title", Value.scalar (str "x"))] (by decide) hwf⟩
